import Mathlib

/-!
Verification of `src/inventory_system.py`.

The Python module keeps an inventory as a `dict` mapping item names
(strings) to quantities (`int` or `float`), with free functions
`add_item`, `remove_item`, `get_qty`, `load_data`, `save_data` and
`check_low_items` operating on it.

Shallow embedding choices:
* A Python `dict` is an insertion-ordered association list with unique
  keys, so `Inventory := List (String × Int)`; the operations below
  reproduce the `dict` semantics exactly (update in place keeps the
  position of a key, insertion appends at the end, `del` removes the
  entry, iteration follows insertion order).  Theorems that depend on
  key uniqueness carry a `keysNodup` hypothesis, which every real
  `dict` satisfies.
* Quantities are modelled as integers (`Int`); the module treats `int`
  and `float` uniformly through arithmetic and comparisons, and no
  claim depends on float-specific rounding.
* Python is dynamically typed and `add_item` / `remove_item` branch on
  the runtime type of their arguments, so those arguments are values
  of an inductive `PyVal` (string, number, or `None`).
* The functions report conditions via `print`; each operation returns
  the new inventory together with the list of messages it printed,
  with messages modelled by the inductive `Msg` (the exact text is
  irrelevant to every claim).  All functions are total Lean functions,
  which models the fact that the Python functions catch every
  exception they can raise on these inputs ("does not raise").
* `add_item` also appends a timestamped entry to a log list; the log
  never feeds back into the inventory and no claim mentions it, so it
  is not modelled (real time is not representable anyway).
* For `load_data` / `save_data` the file system is modelled by
  `FileContent`: the file is missing, holds bytes that are not valid
  JSON, or holds a JSON object with string keys and numeric values
  (the only shape the module ever writes).  Python's `json.dumps` /
  `json.loads` are the trusted external codec, so `save_data` is the
  write of the object and `load_data` matches on the three cases the
  `try/except` distinguishes.
-/

namespace InventorySystem

/-- Runtime value of a Python argument: the module only ever
distinguishes strings, numbers and "anything else" (here `None`). -/
inductive PyVal where
  | str (s : String)
  | num (n : Int)
  | none
deriving DecidableEq, Repr

/-- Truth of `isinstance(v, str)`. -/
def PyVal.isStr : PyVal → Bool
  | .str _ => true
  | _ => false

/-- Truth of `isinstance(v, (int, float))`. -/
def PyVal.isNum : PyVal → Bool
  | .num _ => true
  | _ => false

/-- An inventory: a Python `dict` from item name to quantity, as an
insertion-ordered association list. -/
abbrev Inventory := List (String × Int)

/-- Messages printed by the module; the exact text is irrelevant, only
which condition was reported. -/
inductive Msg where
  | errInvalidName
  | errNotNumber
  | warnNegativeQty
  | infoNotInStock
  | errInvalidQty
  | infoLoaded
  | warnFileNotFound
  | errJSONDecode
deriving DecidableEq, Repr

/-- Python `d[k]` / `d.get(k)`: the value stored for `k`, if any. -/
def dictGet : Inventory → String → Option Int
  | [], _ => Option.none
  | (k, v) :: t, k' => if k = k' then some v else dictGet t k'

/-- Python `d[k] = v`: update in place (keeping the position) when the
key is present, append at the end otherwise. -/
def dictSet : Inventory → String → Int → Inventory
  | [], k, v => [(k, v)]
  | (k', v') :: t, k, v =>
      if k' = k then (k, v) :: t else (k', v') :: dictSet t k v

/-- Python `del d[k]`: drop the entry for `k`. -/
def dictDel : Inventory → String → Inventory
  | [], _ => []
  | (k', v') :: t, k => if k' = k then t else (k', v') :: dictDel t k

/-- Python `d.update(data)`: set each pair of `data` in turn. -/
def dictUpdate (stock : Inventory) (data : List (String × Int)) : Inventory :=
  data.foldl (fun acc kv => dictSet acc kv.1 kv.2) stock

/-- The keys of a real Python `dict` are unique. -/
def keysNodup (stock : Inventory) : Prop := (stock.map Prod.fst).Nodup

instance (stock : Inventory) : Decidable (keysNodup stock) :=
  inferInstanceAs (Decidable (List.Nodup _))

/-- Embedding of `add_item(stock_data, item, qty, logs)` from
`src/inventory_system.py` (lines 15-41): validate that `item` is a
non-empty string and `qty` a number (reporting and returning the stock
unchanged otherwise), warn on a negative quantity, then store
`stock_data.get(item, 0) + qty`.  The timestamped log append is not
modelled (see the header). -/
def add_item (stock_data : Inventory) (item : PyVal) (qty : PyVal) :
    Inventory × List Msg :=
  match item with
  | .str s =>
      if s = "" then (stock_data, [Msg.errInvalidName])
      else
        match qty with
        | .num q =>
            ((dictSet stock_data s ((dictGet stock_data s).getD 0 + q)),
             if q < 0 then [Msg.warnNegativeQty] else [])
        | _ => (stock_data, [Msg.errNotNumber])
  | _ => (stock_data, [Msg.errInvalidName])

/-- Embedding of `remove_item(stock_data, item, qty)` from
`src/inventory_system.py` (lines 44-67): if the item is present,
subtract `qty` (when `qty` is not a number the subtraction raises
`TypeError` before any assignment, which the function catches and
reports, leaving the stock unchanged); delete the entry when the new
quantity is `<= 0`; if the item is absent, report and do nothing.  The
`KeyError` branch is unreachable single-threaded.  A non-string `item`
is never a key of the string-keyed dict, so it takes the absent
branch. -/
def remove_item (stock_data : Inventory) (item : PyVal) (qty : PyVal) :
    Inventory × List Msg :=
  match item with
  | .str s =>
      match dictGet stock_data s with
      | some q0 =>
          match qty with
          | .num q =>
              if q0 - q ≤ 0 then (dictDel stock_data s, [])
              else (dictSet stock_data s (q0 - q), [])
          | _ => (stock_data, [Msg.errInvalidQty])
      | Option.none => (stock_data, [Msg.infoNotInStock])
  | _ => (stock_data, [Msg.infoNotInStock])

/-- Embedding of `get_qty(stock_data, item)` from
`src/inventory_system.py` (lines 70-81): `stock_data.get(item, 0)`. -/
def get_qty (stock_data : Inventory) (item : String) : Int :=
  (dictGet stock_data item).getD 0

/-- Embedding of `check_low_items(stock_data, threshold)` from
`src/inventory_system.py` (lines 138-149): the names of the items
whose quantity is strictly below the threshold, in insertion order.
The Python default argument is `threshold=5`, modelled by
`check_low_items_default`. -/
def check_low_items (stock_data : Inventory) (threshold : Int) :
    List String :=
  (stock_data.filter (fun p => p.2 < threshold)).map Prod.fst

/-- `check_low_items` with its Python default argument `threshold=5`. -/
def check_low_items_default (stock_data : Inventory) : List String :=
  check_low_items stock_data 5

/-- Contents of the inventory file, at the granularity the `try/except`
of `load_data` distinguishes: missing, not valid JSON, or a JSON
object with string keys and numeric values (the only shape the module
writes). -/
inductive FileContent where
  | missing
  | malformed
  | jsonObj (data : List (String × Int))
deriving DecidableEq, Repr

/-- Embedding of `load_data(stock_data, file)` from
`src/inventory_system.py` (lines 84-103): on a successful read and
parse, `stock_data.clear()` then `stock_data.update(data)`; on
`FileNotFoundError` or `json.JSONDecodeError` it only prints — the
in-memory mapping is left exactly as it was. -/
def load_data (stock_data : Inventory) (file : FileContent) :
    Inventory × List Msg :=
  match file with
  | .jsonObj data => (dictUpdate [] data, [Msg.infoLoaded])
  | .missing => (stock_data, [Msg.warnFileNotFound])
  | .malformed => (stock_data, [Msg.errJSONDecode])

/-- Embedding of `save_data(stock_data, file)` from
`src/inventory_system.py` (lines 106-119) on the successful path: the
file receives `json.dumps(stock_data)`, a JSON object with the dict's
keys and values in insertion order (the `IOError` branch only prints
and writes nothing, which claim C3 excludes by assumption). -/
def save_data (stock_data : Inventory) : FileContent :=
  FileContent.jsonObj stock_data

/-- The invariant of claim C5: every stored quantity is positive. -/
def allPos (stock : Inventory) : Prop := ∀ p ∈ stock, 0 < p.2

instance (stock : Inventory) : Decidable (allPos stock) :=
  inferInstanceAs (Decidable (∀ p ∈ stock, 0 < p.2))

/-- Folding a sequence of `add_item` calls for one item name over a
list of quantities (the "sequence of add operations" of claim C1). -/
def add_seq (stock : Inventory) (name : String) (qs : List Int) :
    Inventory :=
  qs.foldl (fun st q => (add_item st (.str name) (.num q)).1) stock

/-! ### Lemmas about the dictionary primitives -/

theorem dictGet_dictSet_self (l : Inventory) (k : String) (v : Int) :
    dictGet (dictSet l k v) k = some v := by
  induction l with
  | nil => simp [dictGet, dictSet]
  | cons p t ih =>
      obtain ⟨k', v'⟩ := p
      by_cases h : k' = k
      · subst h; simp [dictGet, dictSet]
      · simp [dictGet, dictSet, h, ih]

theorem dictGet_dictSet_ne (l : Inventory) (k k' : String) (v : Int)
    (h : k' ≠ k) : dictGet (dictSet l k v) k' = dictGet l k' := by
  induction l with
  | nil => simp [dictGet, dictSet, Ne.symm h]
  | cons p t ih =>
      obtain ⟨a, b⟩ := p
      by_cases ha : a = k
      · subst ha
        simp [dictGet, dictSet, Ne.symm h]
      · simp only [dictSet, if_neg ha]
        by_cases hb : a = k'
        · subst hb; simp [dictGet]
        · simp [dictGet, hb, ih]

theorem dictGet_dictDel_ne (l : Inventory) (k k' : String)
    (h : k' ≠ k) : dictGet (dictDel l k) k' = dictGet l k' := by
  induction l with
  | nil => simp [dictDel]
  | cons p t ih =>
      obtain ⟨a, b⟩ := p
      by_cases ha : a = k
      · subst ha
        simp [dictDel, dictGet, Ne.symm h]
      · simp only [dictDel, if_neg ha]
        by_cases hb : a = k'
        · subst hb; simp [dictGet]
        · simp [dictGet, hb, ih]

theorem dictGet_mem (l : Inventory) (k : String) (v : Int)
    (h : dictGet l k = some v) : (k, v) ∈ l := by
  induction l with
  | nil => simp [dictGet] at h
  | cons p t ih =>
      obtain ⟨a, b⟩ := p
      by_cases ha : a = k
      · subst ha
        simp [dictGet] at h
        simp [h]
      · simp [dictGet, ha] at h
        exact List.mem_cons_of_mem _ (ih h)

theorem dictGet_dictDel_self (l : Inventory) (k : String)
    (h : keysNodup l) : dictGet (dictDel l k) k = Option.none := by
  induction l with
  | nil => simp [dictDel, dictGet]
  | cons p t ih =>
      obtain ⟨a, b⟩ := p
      have ht : keysNodup t := (List.nodup_cons.mp h).2
      by_cases ha : a = k
      · subst ha
        simp only [dictDel, if_pos rfl]
        have hnotin : a ∉ t.map Prod.fst := (List.nodup_cons.mp h).1
        cases hv : dictGet t a with
        | none => exact hv
        | some v =>
            exact absurd (List.mem_map_of_mem Prod.fst (dictGet_mem t a v hv))
              hnotin
      · simp [dictDel, dictGet, ha, ih ht]

theorem dictGet_eq_none (l : Inventory) (k : String)
    (h : k ∉ l.map Prod.fst) : dictGet l k = Option.none := by
  induction l with
  | nil => rfl
  | cons p t ih =>
      obtain ⟨a, b⟩ := p
      simp only [List.map_cons, List.mem_cons] at h
      push_neg at h
      simp [dictGet, Ne.symm h.1, ih h.2]

theorem dictSet_of_not_mem (l : Inventory) (k : String) (v : Int)
    (h : k ∉ l.map Prod.fst) : dictSet l k v = l ++ [(k, v)] := by
  induction l with
  | nil => rfl
  | cons p t ih =>
      obtain ⟨a, b⟩ := p
      simp only [List.map_cons, List.mem_cons] at h
      push_neg at h
      simp [dictSet, Ne.symm h.1, ih h.2]

theorem dictUpdate_eq_append (data : List (String × Int)) :
    ∀ acc : Inventory, (data.map Prod.fst).Nodup →
    (∀ k ∈ data.map Prod.fst, k ∉ acc.map Prod.fst) →
    dictUpdate acc data = acc ++ data := by
  induction data with
  | nil => intro acc _ _; simp [dictUpdate]
  | cons p rest ih =>
      intro acc hnd hdisj
      obtain ⟨k, v⟩ := p
      simp only [List.map_cons, List.nodup_cons] at hnd
      have hk : k ∉ acc.map Prod.fst := by
        exact hdisj k (by simp)
      have step : dictUpdate acc ((k, v) :: rest) =
          dictUpdate (acc ++ [(k, v)]) rest := by
        simp [dictUpdate, dictSet_of_not_mem acc k v hk]
      rw [step, ih (acc ++ [(k, v)]) hnd.2]
      · simp
      · intro k' hk'
        simp only [List.map_append, List.mem_append, List.map_cons,
          List.mem_singleton, List.map_nil]
        push_neg
        refine ⟨hdisj k' (by simp [hk']), ?_⟩
        intro hkk
        subst hkk
        exact hnd.1 hk'

theorem allPos_sub (l l' : Inventory) (hsub : ∀ p ∈ l', p ∈ l)
    (h : allPos l) : allPos l' :=
  fun p hp => h p (hsub p hp)

theorem mem_dictDel (l : Inventory) (k : String) :
    ∀ p ∈ dictDel l k, p ∈ l := by
  induction l with
  | nil => simp [dictDel]
  | cons q t ih =>
      obtain ⟨a, b⟩ := q
      intro p hp
      by_cases ha : a = k
      · simp only [dictDel, if_pos ha] at hp
        exact List.mem_cons_of_mem _ hp
      · simp only [dictDel, if_neg ha, List.mem_cons] at hp
        rcases hp with h1 | h2
        · exact h1 ▸ List.mem_cons_self _ _
        · exact List.mem_cons_of_mem _ (ih p h2)

theorem allPos_dictDel (l : Inventory) (k : String) (h : allPos l) :
    allPos (dictDel l k) :=
  allPos_sub l _ (mem_dictDel l k) h

theorem allPos_dictSet (l : Inventory) (k : String) (v : Int)
    (h : allPos l) (hv : 0 < v) : allPos (dictSet l k v) := by
  induction l with
  | nil =>
      intro p hp
      simp only [dictSet, List.mem_singleton] at hp
      simp [hp, hv]
  | cons q t ih =>
      obtain ⟨a, b⟩ := q
      have ht : allPos t := fun p hp => h p (List.mem_cons_of_mem _ hp)
      intro p hp
      by_cases ha : a = k
      · simp only [dictSet, if_pos ha, List.mem_cons] at hp
        rcases hp with h1 | h2
        · simp [h1, hv]
        · exact h p (List.mem_cons_of_mem _ h2)
      · simp only [dictSet, if_neg ha, List.mem_cons] at hp
        rcases hp with h1 | h2
        · exact h1 ▸ h _ (List.mem_cons_self _ _)
        · exact ih ht p h2

theorem mem_iff_dictGet (l : Inventory) (k : String) (v : Int)
    (h : keysNodup l) : (k, v) ∈ l ↔ dictGet l k = some v := by
  constructor
  · intro hmem
    induction l with
    | nil => simp at hmem
    | cons q t ih =>
        obtain ⟨a, b⟩ := q
        rcases List.mem_cons.mp hmem with h1 | h2
        · obtain ⟨rfl, rfl⟩ := Prod.mk.injEq .. ▸ h1
          simp_all [dictGet]
        · have hnd := List.nodup_cons.mp h
          by_cases ha : a = k
          · subst ha
            exact absurd (List.mem_map_of_mem Prod.fst h2) hnd.1
          · simp only [dictGet, if_neg ha]
            exact ih hnd.2 h2
  · exact dictGet_mem l k v

/-! ### Claim theorems -/

/-- C1: for every sequence of `add_item` calls with a valid (non-empty)
name and quantities `≥ 0`, a subsequent `get_qty` of that name returns
the quantity stored before the sequence (default 0) plus the sum of
the quantities added. -/
theorem add_then_get_cumulative (stock : Inventory) (name : String)
    (qs : List Int) (hname : name ≠ "") (hqs : ∀ q ∈ qs, 0 ≤ q) :
    get_qty (add_seq stock name qs) name = get_qty stock name + qs.sum := by
  induction qs generalizing stock with
  | nil => simp [add_seq]
  | cons q rest ih =>
      have hstep : get_qty (add_item stock (.str name) (.num q)).1 name
          = get_qty stock name + q := by
        simp [add_item, hname, get_qty, dictGet_dictSet_self]
      have hcons : add_seq stock name (q :: rest) =
          add_seq (add_item stock (.str name) (.num q)).1 name rest := rfl
      rw [hcons, ih _ (fun x hx => hqs x (List.mem_cons_of_mem _ hx)), hstep,
        List.sum_cons]
      ring

/-- Witness for C1 at a concrete input. -/
theorem add_then_get_cumulative_witness :
    get_qty (add_seq [("apple", 1)] "apple" [2, 3]) "apple" = 6 :=
  (add_then_get_cumulative [("apple", 1)] "apple" [2, 3] (by decide)
    (by decide)).trans (by decide)

/-- C2: on an inventory with unique keys storing quantity `q` for
`name`, `remove_item name qty` decrements to `q - qty`: when
`q - qty ≤ 0` the key is deleted (gone from the mapping), otherwise a
subsequent get returns `q - qty`. -/
theorem remove_decrements_or_deletes (stock : Inventory) (name : String)
    (q qty : Int) (hnd : keysNodup stock)
    (hq : dictGet stock name = some q) :
    (q - qty ≤ 0 →
      remove_item stock (.str name) (.num qty) = (dictDel stock name, []) ∧
      dictGet (remove_item stock (.str name) (.num qty)).1 name =
        Option.none) ∧
    (0 < q - qty →
      get_qty (remove_item stock (.str name) (.num qty)).1 name =
        q - qty) := by
  constructor
  · intro hle
    have heq : remove_item stock (.str name) (.num qty) =
        (dictDel stock name, []) := by
      simp [remove_item, hq, hle]
    exact ⟨heq, by rw [heq]; exact dictGet_dictDel_self stock name hnd⟩
  · intro hpos
    have hne : ¬ q - qty ≤ 0 := by omega
    simp [remove_item, hq, hne, get_qty, dictGet_dictSet_self]

/-- Witness for C2 at concrete inputs: removing all 5 apples deletes
the key; removing 2 of 5 leaves 3. -/
theorem remove_decrements_or_deletes_witness :
    dictGet (remove_item [("apple", 5)] (.str "apple") (.num 5)).1
      "apple" = Option.none ∧
    get_qty (remove_item [("apple", 5)] (.str "apple") (.num 2)).1
      "apple" = 3 :=
  ⟨((remove_decrements_or_deletes [("apple", 5)] "apple" 5 5 (by decide)
      (by decide)).1 (by decide)).2,
   ((remove_decrements_or_deletes [("apple", 5)] "apple" 5 2 (by decide)
      (by decide)).2 (by decide)).trans (by decide)⟩

/-- C3: saving an inventory (with the unique keys every real dict has)
and loading the resulting file replaces any in-memory mapping with a
mapping equal to the saved one: the same keys bound to the same
values. -/
theorem save_load_roundtrip (stock prior : Inventory)
    (hnd : keysNodup stock) :
    load_data prior (save_data stock) = (stock, [Msg.infoLoaded]) := by
  simp only [save_data, load_data]
  rw [dictUpdate_eq_append stock [] hnd (by simp)]
  simp

/-- Witness for C3 at a concrete input. -/
theorem save_load_roundtrip_witness :
    load_data [("old", 9)] (save_data [("apple", 10), ("banana", 3)]) =
      ([("apple", 10), ("banana", 3)], [Msg.infoLoaded]) :=
  save_load_roundtrip [("apple", 10), ("banana", 3)] [("old", 9)]
    (by decide)

/-- Counterexample to C4: loading a missing file from a non-empty
starting inventory does not leave the empty mapping — `load_data` only
prints on `FileNotFoundError` and never clears the dict. -/
theorem load_missing_not_empty :
    (load_data [("apple", 1)] FileContent.missing).1 ≠ [] := by decide

/-- C4 (amended): on a missing file or malformed JSON, `load_data`
reports the condition and leaves the in-memory mapping exactly as it
was (hence empty only when it started empty); it does not raise. -/
theorem load_error_preserves_stock (stock : Inventory) :
    load_data stock FileContent.missing =
      (stock, [Msg.warnFileNotFound]) ∧
    load_data stock FileContent.malformed =
      (stock, [Msg.errJSONDecode]) :=
  ⟨rfl, rfl⟩

/-- Counterexample to C5: starting from an all-positive inventory,
adding `-5` apples to the 5 in stock stores quantity `0` — `add_item`
only warns about negative quantities and never deletes, so the
invariant "every stored quantity is positive" is broken. -/
theorem add_breaks_pos_invariant :
    allPos [("apple", 5)] ∧
    ¬ allPos (add_item [("apple", 5)] (.str "apple") (.num (-5))).1 := by
  decide

/-- C5 (amended): starting from an inventory in which every stored
quantity is positive, every `remove_item` call preserves that
invariant (items falling to `≤ 0` are deleted), and `add_item`
preserves it whenever the quantity added is positive. -/
theorem pos_invariant_preserved (stock : Inventory) (h : allPos stock) :
    (∀ item qty, allPos (remove_item stock item qty).1) ∧
    (∀ (s : String) (q : Int), 0 < q →
      allPos (add_item stock (.str s) (.num q)).1) := by
  constructor
  · intro item qty
    cases item with
    | num n => exact h
    | none => exact h
    | str s =>
        cases hq : dictGet stock s with
        | none => simpa [remove_item, hq] using h
        | some q0 =>
            cases qty with
            | str t => simpa [remove_item, hq] using h
            | none => simpa [remove_item, hq] using h
            | num q =>
                by_cases hle : q0 - q ≤ 0
                · simpa [remove_item, hq, hle] using
                    allPos_dictDel stock s h
                · simpa [remove_item, hq, hle] using
                    allPos_dictSet stock s (q0 - q) h (by omega)
  · intro s q hqpos
    by_cases hs : s = ""
    · simpa [add_item, hs] using h
    · have hpos : 0 < (dictGet stock s).getD 0 + q := by
        cases hg : dictGet stock s with
        | none => simpa using hqpos
        | some v =>
            have hv : 0 < v := h _ (dictGet_mem stock s v hg)
            simp only [Option.getD_some]
            omega
      simpa [add_item, hs] using allPos_dictSet stock s _ h hpos

/-- Witness for the amended C5 at concrete inputs. -/
theorem pos_invariant_preserved_witness :
    allPos (remove_item [("apple", 2)] (.str "apple") (.num 2)).1 ∧
    allPos (add_item [("apple", 2)] (.str "pear") (.num 3)).1 :=
  ⟨(pos_invariant_preserved [("apple", 2)] (by decide)).1
      (.str "apple") (.num 2),
   (pos_invariant_preserved [("apple", 2)] (by decide)).2 "pear" 3
      (by decide)⟩

/-- C6: `add_item` with an invalid name (non-string or empty) or a
non-numeric quantity, and `remove_item` with a non-numeric quantity,
report the problem and leave the inventory unchanged (every branch is
total: nothing raises); in particular `add("", 5)` performs no
mutation. -/
theorem invalid_input_no_mutation (stock : Inventory) :
    (∀ item qty, item.isStr = false →
        add_item stock item qty = (stock, [Msg.errInvalidName])) ∧
    (∀ qty, add_item stock (.str "") qty =
        (stock, [Msg.errInvalidName])) ∧
    (∀ (s : String) qty, s ≠ "" → qty.isNum = false →
        add_item stock (.str s) qty = (stock, [Msg.errNotNumber])) ∧
    (∀ (s : String) qty, qty.isNum = false →
        (remove_item stock (.str s) qty).1 = stock ∧
        (remove_item stock (.str s) qty).2 ≠ []) ∧
    add_item stock (.str "") (.num 5) = (stock, [Msg.errInvalidName]) := by
  refine ⟨?_, ?_, ?_, ?_, ?_⟩
  · intro item qty hitem
    cases item with
    | str s => simp [PyVal.isStr] at hitem
    | num n => rfl
    | none => rfl
  · intro qty
    simp [add_item]
  · intro s qty hs hqty
    cases qty with
    | num n => simp [PyVal.isNum] at hqty
    | str t => simp [add_item, hs]
    | none => simp [add_item, hs]
  · intro s qty hqty
    cases hg : dictGet stock s with
    | none => exact ⟨by simp [remove_item, hg], by simp [remove_item, hg]⟩
    | some q0 =>
        cases qty with
        | num n => simp [PyVal.isNum] at hqty
        | str t =>
            exact ⟨by simp [remove_item, hg], by simp [remove_item, hg]⟩
        | none =>
            exact ⟨by simp [remove_item, hg], by simp [remove_item, hg]⟩
  · simp [add_item]

/-- Witness for C6 at concrete inputs. -/
theorem invalid_input_no_mutation_witness :
    add_item [("apple", 1)] (.str "") (.num 5) =
      ([("apple", 1)], [Msg.errInvalidName]) ∧
    add_item [("apple", 1)] (.num 123) (.str "ten") =
      ([("apple", 1)], [Msg.errInvalidName]) ∧
    add_item [("apple", 1)] (.str "pear") (.str "ten") =
      ([("apple", 1)], [Msg.errNotNumber]) ∧
    (remove_item [("apple", 1)] (.str "apple") (.str "ten")).1 =
      [("apple", 1)] :=
  ⟨(invalid_input_no_mutation [("apple", 1)]).2.2.2.2,
   (invalid_input_no_mutation [("apple", 1)]).1 (.num 123) (.str "ten")
     (by decide),
   (invalid_input_no_mutation [("apple", 1)]).2.2.1 "pear" (.str "ten")
     (by decide) (by decide),
   ((invalid_input_no_mutation [("apple", 1)]).2.2.2.1 "apple"
     (.str "ten") (by decide)).1⟩

/-- C7: removing a name that is not in the inventory reports the
condition and is a no-op, for every quantity argument (numeric or
not). -/
theorem remove_absent_noop (stock : Inventory) (name : String)
    (qty : PyVal) (h : dictGet stock name = Option.none) :
    remove_item stock (.str name) qty = (stock, [Msg.infoNotInStock]) := by
  simp [remove_item, h]

/-- Witness for C7 at a concrete input. -/
theorem remove_absent_noop_witness :
    remove_item [("apple", 2)] (.str "orange") (.num 1) =
      ([("apple", 2)], [Msg.infoNotInStock]) :=
  remove_absent_noop [("apple", 2)] "orange" (.num 1) (by decide)

/-- C8: on an inventory with unique keys, `check_low_items` returns
exactly the names whose stored quantity is strictly below the
threshold; the Python default argument is 5, and on
`{apple: 10, banana: 3}` it returns `["banana"]`. -/
theorem check_low_items_spec (stock : Inventory) (t : Int)
    (name : String) (hnd : keysNodup stock) :
    (name ∈ check_low_items stock t ↔
      ∃ q, dictGet stock name = some q ∧ q < t) ∧
    check_low_items_default stock = check_low_items stock 5 ∧
    check_low_items [("apple", 10), ("banana", 3)] 5 = ["banana"] := by
  refine ⟨?_, rfl, by decide⟩
  simp only [check_low_items, List.mem_map, List.mem_filter]
  constructor
  · rintro ⟨⟨k, v⟩, ⟨hmem, hlt⟩, rfl⟩
    exact ⟨v, (mem_iff_dictGet stock k v hnd).mp hmem, by simpa using hlt⟩
  · rintro ⟨q, hq, hlt⟩
    exact ⟨(name, q), ⟨(mem_iff_dictGet stock name q hnd).mpr hq,
      by simpa using hlt⟩, rfl⟩

/-- Witness for C8 at a concrete input. -/
theorem check_low_items_spec_witness :
    "banana" ∈ check_low_items [("apple", 10), ("banana", 3)] 5 :=
  (check_low_items_spec [("apple", 10), ("banana", 3)] 5 "banana"
    (by decide)).1.mpr ⟨3, by decide, by decide⟩

/-- C9: `get_qty` returns the stored quantity when the name is present
and 0 when absent; it is a total function with no error branch. -/
theorem get_qty_total_spec (stock : Inventory) (item : String) :
    (∀ q, dictGet stock item = some q → get_qty stock item = q) ∧
    (dictGet stock item = Option.none → get_qty stock item = 0) := by
  constructor
  · intro q h; simp [get_qty, h]
  · intro h; simp [get_qty, h]

/-- Witness for C9 at concrete inputs. -/
theorem get_qty_total_spec_witness :
    get_qty [("apple", 3)] "apple" = 3 ∧
    get_qty [("apple", 3)] "pear" = 0 :=
  ⟨(get_qty_total_spec [("apple", 3)] "apple").1 3 (by decide),
   (get_qty_total_spec [("apple", 3)] "pear").2 (by decide)⟩

/-- C10: `add_item` and `remove_item` touch at most the key they are
given — every other key keeps its binding — and with a non-string item
argument they leave the whole mapping untouched.  `get_qty` and
`check_low_items` take the inventory purely as input and return no
inventory, so in this embedding (as in the Python source, which never
assigns through them) they cannot modify the mapping at all. -/
theorem frame_add_remove (stock : Inventory) (s other : String)
    (qty : PyVal) (h : other ≠ s) :
    dictGet (add_item stock (.str s) qty).1 other = dictGet stock other ∧
    dictGet (remove_item stock (.str s) qty).1 other =
      dictGet stock other ∧
    (∀ item, item.isStr = false →
      (add_item stock item qty).1 = stock ∧
      (remove_item stock item qty).1 = stock) := by
  refine ⟨?_, ?_, ?_⟩
  · by_cases hs : s = ""
    · simp [add_item, hs]
    · cases qty with
      | num q => simp [add_item, hs, dictGet_dictSet_ne stock s other _ h]
      | str t => simp [add_item, hs]
      | none => simp [add_item, hs]
  · cases hg : dictGet stock s with
    | none => simp [remove_item, hg]
    | some q0 =>
        cases qty with
        | num q =>
            by_cases hle : q0 - q ≤ 0
            · simp [remove_item, hg, hle, dictGet_dictDel_ne stock s other h]
            · simp [remove_item, hg, hle,
                dictGet_dictSet_ne stock s other _ h]
        | str t => simp [remove_item, hg]
        | none => simp [remove_item, hg]
  · intro item hitem
    cases item with
    | str t => simp [PyVal.isStr] at hitem
    | num n => exact ⟨rfl, rfl⟩
    | none => exact ⟨rfl, rfl⟩

/-- Witness for C10 at concrete inputs. -/
theorem frame_add_remove_witness :
    dictGet (add_item [("apple", 1), ("banana", 2)] (.str "apple")
      (.num 4)).1 "banana" = some 2 ∧
    dictGet (remove_item [("apple", 1), ("banana", 2)] (.str "apple")
      (.num 4)).1 "banana" = some 2 :=
  ⟨((frame_add_remove [("apple", 1), ("banana", 2)] "apple" "banana"
      (.num 4) (by decide)).1).trans (by decide),
   ((frame_add_remove [("apple", 1), ("banana", 2)] "apple" "banana"
      (.num 4) (by decide)).2.1).trans (by decide)⟩

end InventorySystem
